import Mathlib

/-!
# Verification of the Leontief shock model

Shallow embedding of `leontieff_model_reproducible_result.py`: a Leontief
input-output model built from the OECD 2018 world input-output table
(3195 sector-country pairs), a randomized single-sector shock experiment
(`Leontief_Model.shock`), and the replication aggregator
(`ReproducibleResult`).

Numbers are embedded as exact rationals (`ℚ`); the float special values
produced by `np.divide` (NaN, ±Inf), which the coefficient-matrix claims
depend on, are modelled separately by `NpFloat`.  Fallible operations
(`assert`, numpy errors) return `Except String`.  Methods are embedded in
state-passing style: a method on `self` takes the receiver and returns the
updated receiver next to its return value.  The source hardcodes the
dimension 3195; it appears here as the parameter `n`, instantiated with 3195
where a claim mentions it.
-/

namespace LeontiefVerif

/-! ## Statistics: the numpy routines used by `shock` (lines 139-144) -/

/-- Model of `np.mean l` for a list of finite values, as exact division
`sum / length`.  (For the empty list numpy returns NaN; here division by zero
gives the junk value `0` — no claim inspects the mean of an empty list.) -/
def npMean (l : List ℚ) : ℚ := l.sum / l.length

/-- Model of the square of `np.std l` (the population variance, mean of squared
deviations).  `np.std` itself is the square root of this value; square roots do
not exist in `ℚ`, and no claim inspects this statistic beyond its being
computed as a (non-error) value. -/
def npVarianceVal (l : List ℚ) : ℚ := npMean (l.map (fun x => (x - npMean l) ^ 2))

/-- The interpolated quantile of a non-empty list: sort, take the virtual
index `pos = p * (length - 1)`, and interpolate linearly between the
neighbouring order statistics (numpy's default method). -/
def quantileVal (l : List ℚ) (p : ℚ) : ℚ :=
  let s := l.mergeSort
  let pos : ℚ := p * ((l.length : ℚ) - 1)
  let i : ℕ := (⌊pos⌋).toNat
  let g : ℚ := pos - (i : ℚ)
  let j : ℕ := min (i + 1) (l.length - 1)
  s.getD i 0 * (1 - g) + s.getD j 0 * g

/-- Model of `np.quantile l p`.  numpy first rejects a quantile outside
`[0, 1]` (`ValueError`) and then an empty data list (`IndexError`); both
surface as `Except.error` with numpy's message. -/
def npQuantile (l : List ℚ) (p : ℚ) : Except String ℚ :=
  if p < 0 ∨ 1 < p then .error "Quantiles must be in the range [0, 1]"
  else if l.length = 0 then .error "cannot do a non-empty take from an empty axes."
  else .ok (quantileVal l p)

/-! ## Sampling: `np.random.choice(np.arange n, replace=False, size=k)`
(line 130) -/

/-- Modelled library semantics of drawing without replacement: at each step
pick the element at a random position of the remaining pool, remove it, and
recurse.  The abstract random stream `r` stands in for numpy's generator state;
only the documented without-replacement contract of `np.random.choice`
matters to the program. -/
def sampleLoop (r : ℕ → ℕ) : ℕ → List ℕ → ℕ → List ℕ
  | _, _, 0 => []
  | step, pool, Nat.succ k =>
    let x := pool.getD (r step % pool.length) 0
    x :: sampleLoop r (step + 1) (pool.erase x) k

/-- Model of `np.random.choice(np.arange n, replace=False, size=k)`: numpy
raises `ValueError` when asked for a sample larger than the population with
`replace=False`. -/
def choiceNoReplace (n : ℕ) (r : ℕ → ℕ) (k : ℕ) : Except String (List ℕ) :=
  if k ≤ n then .ok (sampleLoop r 0 (List.range n) k)
  else .error "Cannot take a larger sample than population when replace is False"

/-! ## Float-level model of the coefficient matrix construction (lines 56-57) -/

/-- A double-precision value as produced by `np.divide`, idealised: an exact
finite value, a signed infinity (`inf true` is negative), or NaN.  Rounding of
finite values is not modelled; the special values produced by division by zero
— which the spec's CoefficientBuilder claims are about — are. -/
inductive NpFloat where
  | num : ℚ → NpFloat
  | inf : Bool → NpFloat
  | nan : NpFloat
deriving DecidableEq

/-- IEEE-754 division on such values.  Only the finite/finite cases are
exercised by the builder (the raw table holds finite numbers): `x / 0` is NaN
when `x = 0` and a signed infinity otherwise.  (`ℚ` has no negative zero, so
the sign of a zero divisor is always positive.) -/
def npDiv : NpFloat → NpFloat → NpFloat
  | .num a, .num b =>
    if b = 0 then (if a = 0 then .nan else .inf (decide (a < 0))) else .num (a / b)
  | .num _, .inf _ => .num 0
  | .inf s, .num b => .inf (xor s (decide (b < 0)))
  | .inf _, .inf _ => .nan
  | .nan, _ => .nan
  | _, .nan => .nan

/-- `np.isnan` on one value. -/
def NpFloat.isnan : NpFloat → Bool
  | .nan => true
  | _ => false

/-- Float-level model of lines 56-57:
`A = np.divide(io_matrix, output)` (the length-`n` output vector broadcasts
across columns, so entry `(i, j)` is divided by `output j`) followed by
`A[np.isnan(A)] = 0` — only the NaN entries are patched to zero. -/
def buildAFloat {n : ℕ} (io : Matrix (Fin n) (Fin n) ℚ) (output : Fin n → ℚ) :
    Matrix (Fin n) (Fin n) NpFloat := fun i j =>
  let raw := npDiv (.num (io i j)) (.num (output j))
  if raw.isnan then .num 0 else raw

/-! ## The exact-arithmetic model (`Leontief_Model`) -/

/-- The `result_dict` returned by `shock` (lines 139-144).
`Standard_deviation_sq` holds the square of the `Standard_deviation` entry
(see `npVarianceVal`); the two quantile fields are the keys
`Upper_5%_quantile` and `Upper_1%_quantile`. -/
structure ShockResult where
  Shock_effect_data : List ℚ
  Average : ℚ
  Standard_deviation_sq : ℚ
  Median : ℚ
  Upper_5_quantile : ℚ
  Upper_1_quantile : ℚ
deriving DecidableEq

/-- The state of a `Leontief_Model` instance after `__init__`: the fields the
constructor stores (lines 39-78), over exact rationals.  `io_table`/`df` (raw
pandas objects) are represented by the numeric `io_matrix`, `demand`,
`output` they are reduced to; reading and label-checking the CSV is the
external TableLoader's job. -/
structure Leontief_Model (n : ℕ) where
  io_matrix : Matrix (Fin n) (Fin n) ℚ
  demand : Fin n → ℚ
  output : Fin n → ℚ
  A : Matrix (Fin n) (Fin n) ℚ
  I_minus_A : Matrix (Fin n) (Fin n) ℚ
  leontief_inverse : Matrix (Fin n) (Fin n) ℚ
  total_output : ℚ
  total_final_demand : ℚ

/-- Computable matrix inverse over `ℚ`: `det⁻¹ • adjugate`.  It agrees with
Mathlib's noncomputable `Matrix.inv` (see `matInv_eq_inv`), standing in for
`np.linalg.inv`. -/
def matInv {n : ℕ} (M : Matrix (Fin n) (Fin n) ℚ) : Matrix (Fin n) (Fin n) ℚ :=
  M.det⁻¹ • M.adjugate

/-- The exact-arithmetic coefficient matrix of lines 56-57: entry `(i, j)` is
`io i j / output j`, with the NaN entries (in `ℚ`: the `0 / 0` case) patched
to `0` by `A[np.isnan(A)] = 0`. -/
def coeffA {n : ℕ} (io : Matrix (Fin n) (Fin n) ℚ) (output : Fin n → ℚ) :
    Matrix (Fin n) (Fin n) ℚ :=
  fun i j => if output j = 0 ∧ io i j = 0 then 0 else io i j / output j

/-- Model of the numeric part of `Leontief_Model.__init__` (lines 55-78), from
the already-parsed flow matrix, final-demand row sums and total-output column.
In `ℚ` the NaN patch of line 57 hits exactly the `output j = 0 ∧ io i j = 0`
entries; the float `x / 0` with `x ≠ 0`, which the source does NOT patch,
produces an infinity that `ℚ` cannot hold — that case is analysed at the float
level by `buildAFloat`.  The source fixes `n = 3195`. -/
def Leontief_Model.build {n : ℕ} (io : Matrix (Fin n) (Fin n) ℚ)
    (demand output : Fin n → ℚ) : Leontief_Model n :=
  let A : Matrix (Fin n) (Fin n) ℚ := coeffA io output
  { io_matrix := io
    demand := demand
    output := output
    A := A
    I_minus_A := 1 - A
    leontief_inverse := matInv (1 - A)
    total_output := ∑ j, output j
    total_final_demand := ∑ j, demand j }

/-! ## The shock experiment (`Leontief_Model.shock`, lines 81-146) -/

/-- One iteration's local vector: `mod_vector = vector.copy()` followed by
`mod_vector[sec] = mod_vector[sec] * (1 - shock_size)` — a fresh copy of the
selected vector with the sampled entry scaled. -/
def modVector {n : ℕ} (vector : Fin n → ℚ) (shock_size : ℚ) (sec : ℕ) : Fin n → ℚ :=
  fun i => if (i : ℕ) = sec then vector i * (1 - shock_size) else vector i

/-- The effect recorded for one sampled sector:
`result = np.dot(matrix, mod_vector); effect = 1 - np.sum(result) / benchmark`
(lines 132-135). -/
def singleEffect {n : ℕ} (matrix : Matrix (Fin n) (Fin n) ℚ) (vector : Fin n → ℚ)
    (benchmark shock_size : ℚ) (sec : ℕ) : ℚ :=
  1 - (∑ i, matrix.mulVec (modVector vector shock_size sec) i) / benchmark

/-- The `for sec in sectors` loop (lines 131-136), threading the accumulated
`shock_effects` list exactly as the source appends to it. -/
def shockLoop {n : ℕ} (matrix : Matrix (Fin n) (Fin n) ℚ) (vector : Fin n → ℚ)
    (benchmark shock_size : ℚ) : List ℕ → List ℚ → List ℚ
  | [], acc => acc
  | sec :: rest, acc =>
      shockLoop matrix vector benchmark shock_size rest
        (acc ++ [singleEffect matrix vector benchmark shock_size sec])

/-- Sampling, experiment loop and statistics of `shock` (lines 129-146),
shared by the two branches once `matrix`, `vector`, `benchmark` are selected.
The receiver `M` is threaded through to model the method's `self`.  The
Python dict literal evaluates `Average` and `Standard_deviation` (which never
raise) before `Median`, the first entry that can raise on an empty effect
list; the quantile computations are sequenced in the same order here. -/
def shockAux {n : ℕ} (M : Leontief_Model n) (matrix : Matrix (Fin n) (Fin n) ℚ)
    (vector : Fin n → ℚ) (benchmark shock_size : ℚ) (sample_size : ℕ)
    (rand : ℕ → ℕ) : Except String (Leontief_Model n × ShockResult) := do
  let sectors ← choiceNoReplace n rand sample_size
  let shock_effects := shockLoop matrix vector benchmark shock_size sectors []
  let med ← npQuantile shock_effects (1 / 2)
  let q95 ← npQuantile shock_effects (95 / 100)
  let q99 ← npQuantile shock_effects (99 / 100)
  .ok (M, { Shock_effect_data := shock_effects
            Average := npMean shock_effects
            Standard_deviation_sq := npVarianceVal shock_effects
            Median := med
            Upper_5_quantile := q95
            Upper_1_quantile := q99 })

/-- Model of `Leontief_Model.shock` (lines 81-146): branch selection on the
`shock_type` string (lines 115-124; the failing `assert` of line 124 carries
the message `"Unknown shock type " ++ shock_type`), then the shared
experiment.  The random state consumed by `np.random.choice` is abstracted as
the stream `rand`. -/
def Leontief_Model.shock {n : ℕ} (M : Leontief_Model n) (shock_type : String)
    (shock_size : ℚ) (sample_size : ℕ) (rand : ℕ → ℕ) :
    Except String (Leontief_Model n × ShockResult) :=
  if shock_type = "Demand" then
    shockAux M M.leontief_inverse M.demand M.total_output shock_size sample_size rand
  else if shock_type = "Supply" then
    shockAux M M.I_minus_A M.output M.total_final_demand shock_size sample_size rand
  else
    .error ("Unknown shock type " ++ shock_type)

/-- The raw effect list of a `shock` call (`[]` on error). -/
def shockEffects {n : ℕ} (M : Leontief_Model n) (t : String) (s : ℚ) (k : ℕ)
    (rand : ℕ → ℕ) : List ℚ :=
  match M.shock t s k rand with
  | .ok (_, res) => res.Shock_effect_data
  | .error _ => []

/-- The `Upper_1%_quantile` statistic of a successful `shock` call (0 on
error). -/
def shockU1 {n : ℕ} (M : Leontief_Model n) (t : String) (s : ℚ) (k : ℕ)
    (rand : ℕ → ℕ) : ℚ :=
  match M.shock t s k rand with
  | .ok (_, res) => res.Upper_1_quantile
  | .error _ => 0

/-- The error message of a failing `shock` call. -/
def shockErr {n : ℕ} (M : Leontief_Model n) (t : String) (s : ℚ) (k : ℕ)
    (rand : ℕ → ℕ) : Option String :=
  match M.shock t s k rand with
  | .ok _ => none
  | .error e => some e

/-! ## The aggregator (`ReproducibleResult`, lines 150-200) -/

/-- The `return_result` dict: its three keys `"for_30%_shock_size"`,
`"for_70%_shock_size"`, `"for_100%_shock_size"` are the three fields. -/
structure ReturnResult where
  for_30 : List ℚ
  for_70 : List ℚ
  for_100 : List ℚ
deriving DecidableEq

/-- The state of a `ReproducibleResult` instance. -/
structure ReproducibleResult where
  number_of_replications : ℕ
  shock_sizes : List ℚ
  return_result : ReturnResult

/-- `ReproducibleResult.__init__` (lines 151-174): the result container is
created once, empty, at construction. -/
def ReproducibleResult.init (number_of_replications : ℕ) : ReproducibleResult :=
  { number_of_replications := number_of_replications
    shock_sizes := [3 / 10, 7 / 10, 1]
    return_result := { for_30 := [], for_70 := [], for_100 := [] } }

/-- The `if shock_size == self.shock_sizes[0] ... elif ... else` dispatch of
`run` (lines 194-199), appending the recorded quantile to one bucket. -/
def dispatchAppend (shock_sizes : List ℚ) (shock_size q : ℚ) (st : ReturnResult) :
    ReturnResult :=
  if shock_size = shock_sizes.getD 0 0 then { st with for_30 := st.for_30 ++ [q] }
  else if shock_size = shock_sizes.getD 1 0 then { st with for_70 := st.for_70 ++ [q] }
  else { st with for_100 := st.for_100 ++ [q] }

/-- The inner `for replication in range(...)` loop of `run` (lines 191-199).
Each pass constructs a fresh model from the same CSV — deterministically the
same `M` — and calls `shock` with the defaults `shock_type = "Demand"`,
`sample_size = 300`; `draws sizeIdx rep` is the random stream consumed by
replication `rep` at shock-size index `sizeIdx`. -/
def innerLoop {n : ℕ} (M : Leontief_Model n) (draws : ℕ → ℕ → ℕ → ℕ)
    (shock_sizes : List ℚ) (shock_size : ℚ) (sizeIdx : ℕ) :
    List ℕ → ReturnResult → Except String ReturnResult
  | [], st => .ok st
  | rep :: reps, st => do
      let r ← M.shock "Demand" shock_size 300 (draws sizeIdx rep)
      innerLoop M draws shock_sizes shock_size sizeIdx reps
        (dispatchAppend shock_sizes shock_size r.2.Upper_1_quantile st)

/-- The outer `for shock_size in self.shock_sizes` loop of `run` (line 190). -/
def outerLoop {n : ℕ} (M : Leontief_Model n) (draws : ℕ → ℕ → ℕ → ℕ)
    (shock_sizes : List ℚ) (reps : ℕ) :
    List ℚ → ℕ → ReturnResult → Except String ReturnResult
  | [], _, st => .ok st
  | s :: rest, sizeIdx, st => do
      let st' ← innerLoop M draws shock_sizes s sizeIdx (List.range reps) st
      outerLoop M draws shock_sizes reps rest (sizeIdx + 1) st'

/-- Model of `ReproducibleResult.run` (lines 176-200): iterate the two loops
over the instance's `return_result` and return the updated instance next to
the value `run` returns — in the source both are the same (aliased) dict.  A
failing replication propagates (fail-fast). -/
def ReproducibleResult.run {n : ℕ} (st : ReproducibleResult) (M : Leontief_Model n)
    (draws : ℕ → ℕ → ℕ → ℕ) : Except String (ReproducibleResult × ReturnResult) := do
  let rr ← outerLoop M draws st.shock_sizes st.number_of_replications
    st.shock_sizes 0 st.return_result
  .ok ({ st with return_result := rr }, rr)

/-- `k` successive `run` calls on the same instance, the call at position `c`
(0-based, in call order) consuming the random source `drawsFam c`. -/
def runIterFrom {n : ℕ} (M : Leontief_Model n) (drawsFam : ℕ → ℕ → ℕ → ℕ → ℕ)
    (c : ℕ) : ℕ → ReproducibleResult → Except String ReproducibleResult
  | 0, st => .ok st
  | Nat.succ k, st => do
      let p ← st.run M (drawsFam c)
      runIterFrom M drawsFam (c + 1) k p.1

/-- `k` successive `run` calls starting from call index 0. -/
def runIter {n : ℕ} (M : Leontief_Model n) (drawsFam : ℕ → ℕ → ℕ → ℕ → ℕ)
    (k : ℕ) (st : ReproducibleResult) : Except String ReproducibleResult :=
  runIterFrom M drawsFam 0 k st

/-! ## Concrete instances used to instantiate the theorems -/

/-- A 1-sector model record: no intermediate flows, demand = output = 2, the
two matrices the shock branches read set to the 1×1 identity. -/
def M1 : Leontief_Model 1 :=
  { io_matrix := fun _ _ => 0
    demand := fun _ => 2
    output := fun _ => 2
    A := fun _ _ => 0
    I_minus_A := fun _ _ => 1
    leontief_inverse := fun _ _ => 1
    total_output := 2
    total_final_demand := 2 }

/-- A model built from an unbalanced 1-sector table (no flows, demand 1,
output 2): `A·output + demand = 1 ≠ 2 = output`. -/
def M2 : Leontief_Model 1 :=
  Leontief_Model.build (fun _ _ => 0) (fun _ => 1) (fun _ => 2)

/-- A model built from an exactly balanced 1-sector table (no flows,
demand = output = 2). -/
def M3 : Leontief_Model 1 :=
  Leontief_Model.build (fun _ _ => 0) (fun _ => 2) (fun _ => 2)

/-- The result dict of `M1.shock "Demand" (3/10) 1` when the draw picks
sector 0: one effect `1 - (2 * 7/10) / 2 = 3/10`, all statistics equal to it. -/
def R1 : ShockResult :=
  { Shock_effect_data := [3 / 10]
    Average := 3 / 10
    Standard_deviation_sq := 0
    Median := 3 / 10
    Upper_5_quantile := 3 / 10
    Upper_1_quantile := 3 / 10 }

/-- The result dict of `M3.shock "Supply" 0 1`: the balanced 1-sector table
gives a zero effect. -/
def R3 : ShockResult :=
  { Shock_effect_data := [0]
    Average := 0
    Standard_deviation_sq := 0
    Median := 0
    Upper_5_quantile := 0
    Upper_1_quantile := 0 }

/-- A 3195-sector model record with all-zero data, for the sample-size
claims (its numeric content is never forced by them). -/
def M0 : Leontief_Model 3195 :=
  { io_matrix := fun _ _ => 0
    demand := fun _ => 0
    output := fun _ => 0
    A := fun _ _ => 0
    I_minus_A := fun _ _ => 0
    leontief_inverse := fun _ _ => 0
    total_output := 0
    total_final_demand := 0 }

/-- A 300-sector all-zero model record, for the aggregator claims (whose
default sample size is 300). -/
def M300 : Leontief_Model 300 :=
  { io_matrix := fun _ _ => 0
    demand := fun _ => 0
    output := fun _ => 0
    A := fun _ _ => 0
    I_minus_A := fun _ _ => 0
    leontief_inverse := fun _ _ => 0
    total_output := 0
    total_final_demand := 0 }

/-! ## Helper lemmas -/

theorem ebind_ok {α β : Type} (a : α) (f : α → Except String β) :
    (Except.ok a >>= f) = f a := rfl

theorem ebind_err {α β : Type} (e : String) (f : α → Except String β) :
    ((Except.error e : Except String α) >>= f) = .error e := rfl

/-- The experiment loop only appends: its result is the accumulator followed
by one effect per sampled sector, each computed from the original `vector`. -/
theorem shockLoop_eq_map {n : ℕ} (matrix : Matrix (Fin n) (Fin n) ℚ)
    (vector : Fin n → ℚ) (benchmark s : ℚ) (sectors : List ℕ) (acc : List ℚ) :
    shockLoop matrix vector benchmark s sectors acc =
      acc ++ sectors.map (singleEffect matrix vector benchmark s) := by
  induction sectors generalizing acc with
  | nil => simp [shockLoop]
  | cons sec rest ih => simp [shockLoop, ih]

theorem sampleLoop_length (r : ℕ → ℕ) :
    ∀ (k step : ℕ) (pool : List ℕ), k ≤ pool.length →
      (sampleLoop r step pool k).length = k := by
  intro k
  induction k with
  | zero => intro step pool _; rfl
  | succ k ih =>
    intro step pool hk
    have hpos : 0 < pool.length := lt_of_lt_of_le (Nat.succ_pos k) hk
    have hidx : r step % pool.length < pool.length := Nat.mod_lt _ hpos
    have hmem : pool.getD (r step % pool.length) 0 ∈ pool := by
      rw [List.getD_eq_getElem?_getD, List.getElem?_eq_getElem hidx]
      exact List.getElem_mem hidx
    have herase : (pool.erase (pool.getD (r step % pool.length) 0)).length =
        pool.length - 1 := by
      rw [List.length_erase, if_pos hmem]
    simp only [sampleLoop, List.length_cons]
    rw [ih (step + 1) _ (by omega)]

theorem sampleLoop_subset (r : ℕ → ℕ) :
    ∀ (k step : ℕ) (pool : List ℕ), k ≤ pool.length →
      ∀ x ∈ sampleLoop r step pool k, x ∈ pool := by
  intro k
  induction k with
  | zero => intro step pool _ x hx; simp [sampleLoop] at hx
  | succ k ih =>
    intro step pool hk x hx
    have hpos : 0 < pool.length := lt_of_lt_of_le (Nat.succ_pos k) hk
    have hidx : r step % pool.length < pool.length := Nat.mod_lt _ hpos
    have hmem : pool.getD (r step % pool.length) 0 ∈ pool := by
      rw [List.getD_eq_getElem?_getD, List.getElem?_eq_getElem hidx]
      exact List.getElem_mem hidx
    have herase : (pool.erase (pool.getD (r step % pool.length) 0)).length =
        pool.length - 1 := by
      rw [List.length_erase, if_pos hmem]
    simp only [sampleLoop, List.mem_cons] at hx
    rcases hx with rfl | hx
    · exact hmem
    · exact List.mem_of_mem_erase (ih (step + 1) _ (by omega) x hx)

theorem sampleLoop_nodup (r : ℕ → ℕ) :
    ∀ (k step : ℕ) (pool : List ℕ), pool.Nodup → k ≤ pool.length →
      (sampleLoop r step pool k).Nodup := by
  intro k
  induction k with
  | zero => intro step pool _ _; simp [sampleLoop]
  | succ k ih =>
    intro step pool hnd hk
    have hpos : 0 < pool.length := lt_of_lt_of_le (Nat.succ_pos k) hk
    have hidx : r step % pool.length < pool.length := Nat.mod_lt _ hpos
    have hmem : pool.getD (r step % pool.length) 0 ∈ pool := by
      rw [List.getD_eq_getElem?_getD, List.getElem?_eq_getElem hidx]
      exact List.getElem_mem hidx
    have herase : (pool.erase (pool.getD (r step % pool.length) 0)).length =
        pool.length - 1 := by
      rw [List.length_erase, if_pos hmem]
    simp only [sampleLoop, List.nodup_cons]
    constructor
    · intro hin
      exact hnd.not_mem_erase
        (sampleLoop_subset r k (step + 1) _ (by omega) _ hin)
    · exact ih (step + 1) _ (hnd.sublist (List.erase_sublist _ _)) (by omega)

theorem choiceNoReplace_ok (n : ℕ) (r : ℕ → ℕ) (k : ℕ) (hk : k ≤ n) :
    choiceNoReplace n r k = .ok (sampleLoop r 0 (List.range n) k) := by
  simp [choiceNoReplace, hk]

theorem getD_mem_of_lt {s : List ℚ} {i : ℕ} (hi : i < s.length) : s.getD i 0 ∈ s := by
  rw [List.getD_eq_getElem?_getD, List.getElem?_eq_getElem hi, Option.getD_some]
  exact List.getElem_mem hi

theorem sorted_getD_mono {s : List ℚ} (hs : s.Sorted (· ≤ ·)) {i j : ℕ}
    (hij : i ≤ j) (hj : j < s.length) : s.getD i 0 ≤ s.getD j 0 := by
  have hi : i < s.length := by omega
  rw [List.getD_eq_getElem?_getD, List.getElem?_eq_getElem hi, Option.getD_some,
      List.getD_eq_getElem?_getD, List.getElem?_eq_getElem hj, Option.getD_some]
  rcases Nat.lt_or_ge i j with h | h
  · exact List.pairwise_iff_getElem.mp hs i j hi hj h
  · have hij' : i = j := le_antisymm hij h
    subst hij'
    exact le_refl _

theorem npQuantile_eq_ok {l : List ℚ} {p : ℚ} (hne : l ≠ []) (hp0 : 0 ≤ p)
    (hp1 : p ≤ 1) : npQuantile l p = .ok (quantileVal l p) := by
  have h1 : ¬(p < 0 ∨ 1 < p) := by push_neg; exact ⟨hp0, hp1⟩
  have h2 : ¬(l.length = 0) := fun h => hne (List.length_eq_zero.mp h)
  simp [npQuantile, h1, h2]

theorem quantileVal_between (l : List ℚ) (p : ℚ) (hne : l ≠ []) (hp0 : 0 ≤ p)
    (hp1 : p ≤ 1) :
    (∃ x ∈ l, x ≤ quantileVal l p) ∧ ∃ x ∈ l, quantileVal l p ≤ x := by
  have hn1 : 0 < l.length := List.length_pos.mpr hne
  have hsort : List.Sorted (· ≤ ·) (List.mergeSort l) := List.sorted_mergeSort' l
  have hperm : (List.mergeSort l).Perm l := List.mergeSort_perm l _
  have hslen : (List.mergeSort l).length = l.length := hperm.length_eq
  have hcast : (1 : ℚ) ≤ (l.length : ℚ) := by exact_mod_cast hn1
  set s := List.mergeSort l with hsdef
  set pos := p * ((l.length : ℚ) - 1) with hposdef
  have hpos0 : 0 ≤ pos := mul_nonneg hp0 (by linarith)
  have hfl0 : (0 : ℤ) ≤ ⌊pos⌋ := Int.floor_nonneg.mpr hpos0
  set i := (⌊pos⌋).toNat with hidef
  have hicastZ : (i : ℤ) = ⌊pos⌋ := Int.toNat_of_nonneg hfl0
  have hicast : (i : ℚ) = (⌊pos⌋ : ℚ) := by exact_mod_cast congrArg (fun z : ℤ => (z : ℚ)) hicastZ
  have hposle : pos ≤ (l.length : ℚ) - 1 := by
    rw [hposdef]
    nlinarith [mul_le_mul_of_nonneg_right hp1 (show (0 : ℚ) ≤ (l.length : ℚ) - 1 by linarith)]
  have hfl_le : ⌊pos⌋ ≤ (l.length : ℤ) - 1 := by
    have h2 : pos ≤ (((l.length : ℤ) - 1 : ℤ) : ℚ) := by push_cast; linarith
    have h3 := Int.floor_le_floor h2
    simpa using h3
  have hi_lt : i < l.length := by omega
  set j := min (i + 1) (l.length - 1) with hjdef
  have hj_lt : j < l.length := by omega
  have hij : i ≤ j := by omega
  have hg0 : 0 ≤ pos - (i : ℚ) := by rw [hicast]; exact sub_nonneg.mpr (Int.floor_le pos)
  have hg1 : pos - (i : ℚ) ≤ 1 := by
    rw [hicast]
    have := Int.lt_floor_add_one pos
    linarith
  have hsij : s.getD i 0 ≤ s.getD j 0 :=
    sorted_getD_mono hsort hij (by rw [hslen]; exact hj_lt)
  have hval : quantileVal l p =
      s.getD i 0 * (1 - (pos - (i : ℚ))) + s.getD j 0 * (pos - (i : ℚ)) := rfl
  clear_value s pos i j
  constructor
  · refine ⟨s.getD 0 0, hperm.mem_iff.mp (getD_mem_of_lt (by rw [hslen]; exact hn1)), ?_⟩
    have h0i : s.getD 0 0 ≤ s.getD i 0 :=
      sorted_getD_mono hsort (Nat.zero_le i) (by rw [hslen]; exact hi_lt)
    rw [hval]
    nlinarith [mul_nonneg hg0 (sub_nonneg.mpr hsij)]
  · refine ⟨s.getD (l.length - 1) 0,
      hperm.mem_iff.mp (getD_mem_of_lt (by rw [hslen]; omega)), ?_⟩
    have hjl : s.getD j 0 ≤ s.getD (l.length - 1) 0 :=
      sorted_getD_mono hsort (by omega) (by rw [hslen]; omega)
    rw [hval]
    nlinarith [mul_nonneg (sub_nonneg.mpr hsij) (show (0 : ℚ) ≤ 1 - (pos - (i : ℚ)) by linarith)]

set_option maxHeartbeats 2000000 in
theorem quantileVal_mono (l : List ℚ) (p p' : ℚ) (hne : l ≠ []) (hp0 : 0 ≤ p)
    (hpp : p ≤ p') (hp1 : p' ≤ 1) : quantileVal l p ≤ quantileVal l p' := by
  have hn1 : 0 < l.length := List.length_pos.mpr hne
  have hsort : List.Sorted (· ≤ ·) (List.mergeSort l) := List.sorted_mergeSort' l
  have hperm : (List.mergeSort l).Perm l := List.mergeSort_perm l _
  have hslen : (List.mergeSort l).length = l.length := hperm.length_eq
  have hcast : (1 : ℚ) ≤ (l.length : ℚ) := by exact_mod_cast hn1
  have hp0' : 0 ≤ p' := le_trans hp0 hpp
  have hp1p : p ≤ 1 := le_trans hpp hp1
  set s := List.mergeSort l with hsdef
  set pos := p * ((l.length : ℚ) - 1) with hposdef
  set pos' := p' * ((l.length : ℚ) - 1) with hposdef'
  have hposle2 : pos ≤ pos' := by
    rw [hposdef, hposdef']
    exact mul_le_mul_of_nonneg_right hpp (by linarith)
  have hpos0 : 0 ≤ pos := mul_nonneg hp0 (by linarith)
  have hpos0' : 0 ≤ pos' := le_trans hpos0 hposle2
  have hfl0 : (0 : ℤ) ≤ ⌊pos⌋ := Int.floor_nonneg.mpr hpos0
  have hfl0' : (0 : ℤ) ≤ ⌊pos'⌋ := Int.floor_nonneg.mpr hpos0'
  set i := (⌊pos⌋).toNat with hidef
  set i' := (⌊pos'⌋).toNat with hidef'
  have hicastZ : (i : ℤ) = ⌊pos⌋ := Int.toNat_of_nonneg hfl0
  have hicastZ' : (i' : ℤ) = ⌊pos'⌋ := Int.toNat_of_nonneg hfl0'
  have hicast : (i : ℚ) = (⌊pos⌋ : ℚ) := by exact_mod_cast congrArg (fun z : ℤ => (z : ℚ)) hicastZ
  have hicast' : (i' : ℚ) = (⌊pos'⌋ : ℚ) := by exact_mod_cast congrArg (fun z : ℤ => (z : ℚ)) hicastZ'
  have hposle : pos ≤ (l.length : ℚ) - 1 := by
    rw [hposdef]
    nlinarith [mul_le_mul_of_nonneg_right hp1p (show (0 : ℚ) ≤ (l.length : ℚ) - 1 by linarith)]
  have hposle' : pos' ≤ (l.length : ℚ) - 1 := by
    rw [hposdef']
    nlinarith [mul_le_mul_of_nonneg_right hp1 (show (0 : ℚ) ≤ (l.length : ℚ) - 1 by linarith)]
  have hfl_le : ⌊pos⌋ ≤ (l.length : ℤ) - 1 := by
    have h2 : pos ≤ (((l.length : ℤ) - 1 : ℤ) : ℚ) := by push_cast; linarith
    simpa using Int.floor_le_floor h2
  have hfl_le' : ⌊pos'⌋ ≤ (l.length : ℤ) - 1 := by
    have h2 : pos' ≤ (((l.length : ℤ) - 1 : ℤ) : ℚ) := by push_cast; linarith
    simpa using Int.floor_le_floor h2
  have hflmono : ⌊pos⌋ ≤ ⌊pos'⌋ := Int.floor_le_floor hposle2
  have hi_lt : i < l.length := by omega
  have hi_lt' : i' < l.length := by omega
  have hiile : i ≤ i' := by omega
  set j := min (i + 1) (l.length - 1) with hjdef
  set j' := min (i' + 1) (l.length - 1) with hjdef'
  have hj_lt : j < l.length := by omega
  have hj_lt' : j' < l.length := by omega
  have hij : i ≤ j := by omega
  have hij' : i' ≤ j' := by omega
  have hg0 : 0 ≤ pos - (i : ℚ) := by rw [hicast]; exact sub_nonneg.mpr (Int.floor_le pos)
  have hg0' : 0 ≤ pos' - (i' : ℚ) := by rw [hicast']; exact sub_nonneg.mpr (Int.floor_le pos')
  have hg1 : pos - (i : ℚ) ≤ 1 := by
    rw [hicast]
    have := Int.lt_floor_add_one pos
    linarith
  have hg1' : pos' - (i' : ℚ) ≤ 1 := by
    rw [hicast']
    have := Int.lt_floor_add_one pos'
    linarith
  have hsij : s.getD i 0 ≤ s.getD j 0 :=
    sorted_getD_mono hsort hij (by rw [hslen]; exact hj_lt)
  have hsij' : s.getD i' 0 ≤ s.getD j' 0 :=
    sorted_getD_mono hsort hij' (by rw [hslen]; exact hj_lt')
  have hval : quantileVal l p =
      s.getD i 0 * (1 - (pos - (i : ℚ))) + s.getD j 0 * (pos - (i : ℚ)) := rfl
  have hval' : quantileVal l p' =
      s.getD i' 0 * (1 - (pos' - (i' : ℚ))) + s.getD j' 0 * (pos' - (i' : ℚ)) := rfl
  clear_value s pos pos' i i' j j'
  rw [hval, hval']
  rcases Nat.lt_or_ge i i' with hlt | hge
  · -- the two virtual indices fall in different cells: chain through s[j] ≤ s[i']
    have hjle : j ≤ i' := by omega
    have hmid : s.getD j 0 ≤ s.getD i' 0 :=
      sorted_getD_mono hsort hjle (by rw [hslen]; exact hi_lt')
    have hup : s.getD i 0 * (1 - (pos - (i : ℚ))) + s.getD j 0 * (pos - (i : ℚ)) ≤
        s.getD j 0 := by
      nlinarith [mul_nonneg (sub_nonneg.mpr hsij)
        (show (0 : ℚ) ≤ 1 - (pos - (i : ℚ)) by linarith)]
    have hlo : s.getD i' 0 ≤
        s.getD i' 0 * (1 - (pos' - (i' : ℚ))) + s.getD j' 0 * (pos' - (i' : ℚ)) := by
      nlinarith [mul_nonneg hg0' (sub_nonneg.mpr hsij')]
    linarith
  · -- same cell: i = i', j = j', and the interpolation weight grows
    have hii : i = i' := le_antisymm hiile hge
    subst hii
    have hjj : j = j' := by rw [hjdef, hjdef']
    rw [← hjj]
    have hgg : pos - (i : ℚ) ≤ pos' - (i : ℚ) := by linarith
    nlinarith [mul_nonneg (sub_nonneg.mpr hsij) (sub_nonneg.mpr hgg)]

/-- **C4.** For every shock experiment with `sampleSize = k` (`1 ≤ k ≤ N`,
`N = 3195`), the `k` sector indices drawn by
`np.random.choice(np.arange(3195), replace=False, size=k)` are pairwise
distinct and each lies in `[0, N)`: sampling without replacement over the
full index range. -/
theorem claim_C4_sample_distinct_in_range (r : ℕ → ℕ) (k : ℕ)
    (h1 : 1 ≤ k) (h2 : k ≤ 3195) :
    ∃ l, choiceNoReplace 3195 r k = .ok l ∧
      l.Nodup ∧ l.length = k ∧ ∀ x ∈ l, x < 3195 := by
  have hlen : (List.range 3195).length = 3195 := List.length_range 3195
  refine ⟨sampleLoop r 0 (List.range 3195) k, choiceNoReplace_ok 3195 r k h2, ?_, ?_, ?_⟩
  · exact sampleLoop_nodup r k 0 _ (List.nodup_range 3195) (by omega)
  · exact sampleLoop_length r k 0 _ (by omega)
  · intro x hx
    have := sampleLoop_subset r k 0 _ (by omega) x hx
    exact List.mem_range.mp this

/-- Witness for C4 at the default sample size 300. -/
theorem claim_C4_witness :
    ∃ l, choiceNoReplace 3195 (fun _ => 0) 300 = .ok l ∧
      l.Nodup ∧ l.length = 300 ∧ ∀ x ∈ l, x < 3195 :=
  claim_C4_sample_distinct_in_range (fun _ => 0) 300 (by decide) (by decide)

theorem shock_demand {n : ℕ} (M : Leontief_Model n) (s : ℚ) (k : ℕ) (rand : ℕ → ℕ) :
    M.shock "Demand" s k rand =
      shockAux M M.leontief_inverse M.demand M.total_output s k rand := rfl

theorem shock_supply {n : ℕ} (M : Leontief_Model n) (s : ℚ) (k : ℕ) (rand : ℕ → ℕ) :
    M.shock "Supply" s k rand =
      shockAux M M.I_minus_A M.output M.total_final_demand s k rand := rfl

/-- Inversion of a successful run of the shared experiment body: the receiver
is returned unchanged, and every field of the result dict is pinned down. -/
theorem shockAux_inv {n : ℕ} {M M' : Leontief_Model n}
    {matrix : Matrix (Fin n) (Fin n) ℚ} {vector : Fin n → ℚ}
    {benchmark s : ℚ} {k : ℕ} {rand : ℕ → ℕ} {res : ShockResult}
    (h : shockAux M matrix vector benchmark s k rand = .ok (M', res)) :
    M' = M ∧ ∃ sectors, choiceNoReplace n rand k = .ok sectors ∧
      res.Shock_effect_data = sectors.map (singleEffect matrix vector benchmark s) ∧
      npQuantile res.Shock_effect_data (1 / 2) = .ok res.Median ∧
      npQuantile res.Shock_effect_data (95 / 100) = .ok res.Upper_5_quantile ∧
      npQuantile res.Shock_effect_data (99 / 100) = .ok res.Upper_1_quantile ∧
      res.Average = npMean res.Shock_effect_data ∧
      res.Standard_deviation_sq = npVarianceVal res.Shock_effect_data := by
  unfold shockAux at h
  cases hc : choiceNoReplace n rand k with
  | error e => rw [hc] at h; simp [ebind_err] at h
  | ok sectors =>
    rw [hc] at h
    simp only [ebind_ok] at h
    cases h1 : npQuantile (shockLoop matrix vector benchmark s sectors []) (1 / 2) with
    | error e => rw [h1] at h; simp [ebind_err] at h
    | ok med =>
      rw [h1] at h
      simp only [ebind_ok] at h
      cases h2 : npQuantile (shockLoop matrix vector benchmark s sectors []) (95 / 100) with
      | error e => rw [h2] at h; simp [ebind_err] at h
      | ok q95 =>
        rw [h2] at h
        simp only [ebind_ok] at h
        cases h3 : npQuantile (shockLoop matrix vector benchmark s sectors []) (99 / 100) with
        | error e => rw [h3] at h; simp [ebind_err] at h
        | ok q99 =>
          rw [h3] at h
          simp only [ebind_ok] at h
          simp only [Except.ok.injEq, Prod.mk.injEq] at h
          obtain ⟨hM, hres⟩ := h
          subst hM
          subst hres
          have hdata : (shockLoop matrix vector benchmark s sectors []) =
              sectors.map (singleEffect matrix vector benchmark s) := by
            rw [shockLoop_eq_map]; simp
          exact ⟨rfl, sectors, rfl, hdata, by simpa [hdata] using h1,
            by simpa [hdata] using h2, by simpa [hdata] using h3,
            by simp [hdata], by simp [hdata]⟩

/-- **C9.** For every call of the shock experiment with a `shock_type` other
than `"Demand"` or `"Supply"`, the operation fails — the `assert False` of
line 124, with message `"Unknown shock type <type>"` — before any sampling or
computation, producing no result dict. -/
theorem claim_C9_invalid_shock_type {n : ℕ} (M : Leontief_Model n) (t : String)
    (s : ℚ) (k : ℕ) (rand : ℕ → ℕ) (h1 : t ≠ "Demand") (h2 : t ≠ "Supply") :
    M.shock t s k rand = .error ("Unknown shock type " ++ t) := by
  simp [Leontief_Model.shock, h1, h2]

/-- Witness for C9: the string `"Unknown"`. -/
theorem claim_C9_witness :
    M1.shock "Unknown" (3 / 10) 1 (fun _ => 0) =
      .error ("Unknown shock type " ++ "Unknown") :=
  claim_C9_invalid_shock_type M1 "Unknown" (3 / 10) 1 (fun _ => 0)
    (by decide) (by decide)

/-- **C8 (amended).** There is no dedicated sample-size validation in `shock`.
A `sample_size` above the population size fails inside the sampling call with
numpy's cannot-take-a-larger-sample `ValueError`; `sample_size = 0` is NOT
rejected at sampling: the draw succeeds with an empty sample, the loop records
no effects, and the call fails only when the median is computed over the empty
effect list (numpy's `IndexError`).  In both cases the error propagates and no
result dict is produced. -/
theorem claim_C8_amended_sample_size {n : ℕ} (M : Leontief_Model n) (t : String)
    (s : ℚ) (rand : ℕ → ℕ) (k0 kBig : ℕ)
    (ht : t = "Demand" ∨ t = "Supply") (h0 : k0 = 0) (hBig : n < kBig) :
    M.shock t s k0 rand = .error "cannot do a non-empty take from an empty axes." ∧
    M.shock t s kBig rand =
      .error "Cannot take a larger sample than population when replace is False" := by
  subst h0
  have hchoice0 : choiceNoReplace n rand 0 = .ok [] :=
    choiceNoReplace_ok n rand 0 (Nat.zero_le n)
  have hchoiceBig : choiceNoReplace n rand kBig =
      .error "Cannot take a larger sample than population when replace is False" := by
    rw [choiceNoReplace, if_neg (by omega)]
  have hq : npQuantile (shockLoop (n := n) 0 0 0 s [] []) (1 / 2) =
      .error "cannot do a non-empty take from an empty axes." := by
    norm_num [shockLoop, npQuantile]
  rcases ht with rfl | rfl
  · refine ⟨?_, ?_⟩
    · rw [shock_demand]
      unfold shockAux
      rw [hchoice0]
      simp only [ebind_ok]
      norm_num [shockLoop, npQuantile, ebind_err]
    · rw [shock_demand]
      unfold shockAux
      rw [hchoiceBig, ebind_err]
  · refine ⟨?_, ?_⟩
    · rw [shock_supply]
      unfold shockAux
      rw [hchoice0]
      simp only [ebind_ok]
      norm_num [shockLoop, npQuantile, ebind_err]
    · rw [shock_supply]
      unfold shockAux
      rw [hchoiceBig, ebind_err]

/-- Witness for the amended C8 at `n = 1`, `k0 = 0`, `kBig = 2`. -/
theorem claim_C8_amended_witness :
    M1.shock "Demand" (3 / 10) 0 (fun _ => 0) =
      .error "cannot do a non-empty take from an empty axes." ∧
    M1.shock "Demand" (3 / 10) 2 (fun _ => 0) =
      .error "Cannot take a larger sample than population when replace is False" :=
  claim_C8_amended_sample_size M1 "Demand" (3 / 10) (fun _ => 0) 0 2
    (Or.inl rfl) rfl (by decide)

/-- **C8 (counterexample).** The claim as stated — both out-of-bounds sample
sizes abort with one dedicated `InvalidSampleSizeError` *before any sampling*
— is false of the code: on the 3195-sector model, `sample_size = 0` sails
through the sampling call (which succeeds with an empty draw) and the call
fails later, in the statistics, with the empty-axes `IndexError`, while
`sample_size = 3196` fails with the sampler's own `ValueError`; the two
failures are distinct and neither is a pre-sampling bound check. -/
theorem claim_C8_counterexample :
    choiceNoReplace 3195 (fun _ => 0) 0 = .ok [] ∧
    shockErr M0 "Demand" (3 / 10) 0 (fun _ => 0) =
      some "cannot do a non-empty take from an empty axes." ∧
    shockErr M0 "Demand" (3 / 10) 3196 (fun _ => 0) =
      some "Cannot take a larger sample than population when replace is False" := by
  refine ⟨by with_unfolding_all rfl, ?_, ?_⟩
  · with_unfolding_all decide
  · with_unfolding_all decide

/-- **C2 (amended).** The coefficient matrix divides flow by the consuming
sector's total output and patches only NaN to zero: `A[i,j] = Flow[i,j] /
TotalOutput[j]` whenever `TotalOutput[j] ≠ 0`; a `0 / 0` entry (zero flow over
zero output) is NaN and is set to exactly `0`; but a nonzero flow over a zero
total output divides to a signed infinity, which `A[np.isnan(A)] = 0` leaves
in place.  Hence no NaN survives in `A`, yet an Inf can, and a column with
zero total output is all-zero only when its flow entries are all zero. -/
theorem claim_C2_amended_coefficient_matrix {n : ℕ}
    (io : Matrix (Fin n) (Fin n) ℚ) (output : Fin n → ℚ) (i j : Fin n) :
    buildAFloat io output i j =
      (if output j = 0 then
        (if io i j = 0 then NpFloat.num 0 else NpFloat.inf (decide (io i j < 0)))
       else NpFloat.num (io i j / output j)) ∧
    (buildAFloat io output i j).isnan = false := by
  by_cases h0 : output j = 0
  · by_cases h1 : io i j = 0
    · simp [buildAFloat, npDiv, h0, h1, NpFloat.isnan]
    · simp [buildAFloat, npDiv, h0, h1, NpFloat.isnan]
  · simp [buildAFloat, npDiv, h0, NpFloat.isnan]

/-- **C2 (counterexample).** On the 1-sector table with `Flow[0,0] = 1` and
`TotalOutput[0] = 0`, the claim demands `A[0,0] = 0` and no Inf in `A`; the
code produces `A[0,0] = +Inf` (only NaN is patched, not Inf). -/
theorem claim_C2_counterexample :
    (fun _ : Fin 1 => (0 : ℚ)) 0 = 0 ∧
    buildAFloat (n := 1) (fun _ _ => (1 : ℚ)) (fun _ => (0 : ℚ)) 0 0 = NpFloat.inf false ∧
    NpFloat.inf false ≠ NpFloat.num 0 := by
  refine ⟨rfl, ?_, by simp⟩
  with_unfolding_all decide

/-- **C1.** Every successful run of the shock experiment used a valid shock
type; for `"Demand"` the active data is (LeontiefInverse, FinalDemand,
TotalOutputSum), for `"Supply"` it is (Identity − A, TotalOutput,
TotalFinalDemandSum); and each recorded effect for a sampled sector `sec`
equals `1 − sum(matrix ·ᵥ v) / benchmark`, where `v` is a copy of the active
vector with entry `sec` multiplied by `(1 − shock_size)`. -/
theorem claim_C1_branch_and_effect_formula {n : ℕ} (M M' : Leontief_Model n)
    (t : String) (s : ℚ) (k : ℕ) (rand : ℕ → ℕ) (res : ShockResult)
    (h : M.shock t s k rand = .ok (M', res)) :
    (t = "Demand" ∨ t = "Supply") ∧
    ∃ sectors, choiceNoReplace n rand k = .ok sectors ∧
      (t = "Demand" → res.Shock_effect_data = sectors.map (fun sec =>
        1 - (∑ i, M.leontief_inverse.mulVec (modVector M.demand s sec) i) /
          M.total_output)) ∧
      (t = "Supply" → res.Shock_effect_data = sectors.map (fun sec =>
        1 - (∑ i, M.I_minus_A.mulVec (modVector M.output s sec) i) /
          M.total_final_demand)) := by
  by_cases h1 : t = "Demand"
  · subst h1
    rw [shock_demand] at h
    obtain ⟨hM, sectors, hc, hdata, _⟩ := shockAux_inv h
    exact ⟨Or.inl rfl, sectors, hc, fun _ => hdata,
      fun hsup => absurd hsup (by decide)⟩
  · by_cases h2 : t = "Supply"
    · subst h2
      rw [shock_supply] at h
      obtain ⟨hM, sectors, hc, hdata, _⟩ := shockAux_inv h
      exact ⟨Or.inr rfl, sectors, hc, fun hdem => absurd hdem (by decide),
        fun _ => hdata⟩
    · simp [Leontief_Model.shock, h1, h2] at h

/-- Witness for C1: the 1-sector model `M1`, a Demand shock of 0.3 on one
sampled sector. -/
theorem claim_C1_witness :
    ("Demand" = "Demand" ∨ "Demand" = "Supply") ∧
    ∃ sectors, choiceNoReplace 1 (fun _ => 0) 1 = .ok sectors ∧
      ("Demand" = "Demand" → R1.Shock_effect_data = sectors.map (fun sec =>
        1 - (∑ i, M1.leontief_inverse.mulVec (modVector M1.demand (3 / 10) sec) i) /
          M1.total_output)) ∧
      ("Demand" = "Supply" → R1.Shock_effect_data = sectors.map (fun sec =>
        1 - (∑ i, M1.I_minus_A.mulVec (modVector M1.output (3 / 10) sec) i) /
          M1.total_final_demand)) :=
  claim_C1_branch_and_effect_formula M1 M1 "Demand" (3 / 10) 1 (fun _ => 0) R1
    (by with_unfolding_all rfl)

/-- **C7.** Frame property of `shock`: the method returns its receiver
unchanged — no stored field (`demand`, `output`, `A`, `I_minus_A`,
`leontief_inverse`, the two benchmark sums) is written — and the recorded
effect list is a `map` over the drawn sectors of a function of the *stored*
vector of `M` alone: each iteration scales a fresh copy (`modVector`), so no
modification leaks into the original or into later iterations. -/
theorem claim_C7_shock_is_frame_preserving {n : ℕ} (M M' : Leontief_Model n)
    (t : String) (s : ℚ) (k : ℕ) (rand : ℕ → ℕ) (res : ShockResult)
    (h : M.shock t s k rand = .ok (M', res)) :
    M' = M ∧
    ∃ sectors, choiceNoReplace n rand k = .ok sectors ∧
      ((t = "Demand" → res.Shock_effect_data =
          sectors.map (singleEffect M.leontief_inverse M.demand M.total_output s)) ∧
       (t = "Supply" → res.Shock_effect_data =
          sectors.map (singleEffect M.I_minus_A M.output M.total_final_demand s))) := by
  by_cases h1 : t = "Demand"
  · subst h1
    rw [shock_demand] at h
    obtain ⟨hM, sectors, hc, hdata, _⟩ := shockAux_inv h
    exact ⟨hM, sectors, hc, fun _ => hdata, fun hsup => absurd hsup (by decide)⟩
  · by_cases h2 : t = "Supply"
    · subst h2
      rw [shock_supply] at h
      obtain ⟨hM, sectors, hc, hdata, _⟩ := shockAux_inv h
      exact ⟨hM, sectors, hc, fun hdem => absurd hdem (by decide), fun _ => hdata⟩
    · simp [Leontief_Model.shock, h1, h2] at h

/-- Witness for C7: a Supply shock of 0.3 on the 1-sector model `M1`. -/
theorem claim_C7_witness :
    M1 = M1 ∧
    ∃ sectors, choiceNoReplace 1 (fun _ => 0) 1 = .ok sectors ∧
      (("Supply" = "Demand" → R1.Shock_effect_data =
          sectors.map (singleEffect M1.leontief_inverse M1.demand M1.total_output (3 / 10))) ∧
       ("Supply" = "Supply" → R1.Shock_effect_data =
          sectors.map (singleEffect M1.I_minus_A M1.output M1.total_final_demand (3 / 10)))) :=
  claim_C7_shock_is_frame_preserving M1 M1 "Supply" (3 / 10) 1 (fun _ => 0) R1
    (by with_unfolding_all rfl)

/-- **C6.** For every non-empty effect sequence produced by a shock
experiment, the recorded `Upper_1%_quantile` is at least the recorded
`Median`, and the `Median` lies between the minimum and the maximum of the
raw effect sequence (stated as: some effect is below it and some effect is
above it). -/
theorem claim_C6_percentile_invariants {n : ℕ} (M M' : Leontief_Model n)
    (t : String) (s : ℚ) (k : ℕ) (rand : ℕ → ℕ) (res : ShockResult)
    (h : M.shock t s k rand = .ok (M', res)) (hne : res.Shock_effect_data ≠ []) :
    res.Median ≤ res.Upper_1_quantile ∧
    (∃ x ∈ res.Shock_effect_data, x ≤ res.Median) ∧
    (∃ x ∈ res.Shock_effect_data, res.Median ≤ x) := by
  have hinv : npQuantile res.Shock_effect_data (1 / 2) = .ok res.Median ∧
      npQuantile res.Shock_effect_data (99 / 100) = .ok res.Upper_1_quantile := by
    by_cases h1 : t = "Demand"
    · subst h1
      rw [shock_demand] at h
      obtain ⟨_, _, _, _, hq1, _, hq3, _⟩ := shockAux_inv h
      exact ⟨hq1, hq3⟩
    · by_cases h2 : t = "Supply"
      · subst h2
        rw [shock_supply] at h
        obtain ⟨_, _, _, _, hq1, _, hq3, _⟩ := shockAux_inv h
        exact ⟨hq1, hq3⟩
      · simp [Leontief_Model.shock, h1, h2] at h
  obtain ⟨hq1, hq3⟩ := hinv
  rw [npQuantile_eq_ok hne (by norm_num) (by norm_num)] at hq1 hq3
  have hm : res.Median = quantileVal res.Shock_effect_data (1 / 2) :=
    (Except.ok.injEq _ _ ▸ hq1).symm
  have hu : res.Upper_1_quantile = quantileVal res.Shock_effect_data (99 / 100) :=
    (Except.ok.injEq _ _ ▸ hq3).symm
  obtain ⟨hlow, hhigh⟩ :=
    quantileVal_between res.Shock_effect_data (1 / 2) hne (by norm_num) (by norm_num)
  refine ⟨?_, ?_, ?_⟩
  · rw [hm, hu]
    exact quantileVal_mono res.Shock_effect_data (1 / 2) (99 / 100) hne
      (by norm_num) (by norm_num) (by norm_num)
  · rw [hm]; exact hlow
  · rw [hm]; exact hhigh

/-- Witness for C6 on the 1-sector model `M1`. -/
theorem claim_C6_witness :
    R1.Median ≤ R1.Upper_1_quantile ∧
    (∃ x ∈ R1.Shock_effect_data, x ≤ R1.Median) ∧
    (∃ x ∈ R1.Shock_effect_data, R1.Median ≤ x) :=
  claim_C6_percentile_invariants M1 M1 "Demand" (3 / 10) 1 (fun _ => 0) R1
    (by with_unfolding_all rfl) (by simp [R1])

theorem matInv_eq_inv {n : ℕ} (M : Matrix (Fin n) (Fin n) ℚ) : matInv M = M⁻¹ := by
  simp [matInv, Matrix.inv_def, Ring.inverse_eq_inv]

/-- Scaling a vector entry by `(1 - 0)` is the identity: a zero-size shock
leaves the copied vector equal to the original. -/
theorem modVector_zero {n : ℕ} (v : Fin n → ℚ) (sec : ℕ) : modVector v 0 sec = v := by
  funext i
  simp [modVector]

/-- **C3 (counterexample).** On a model built from a table that does *not*
satisfy the accounting identity `A·output + demand = output` (here: no flows,
demand 1, output 2), a Supply shock with `shock_size = 0` records the effect
`1 - 2/1 = -1 ≠ 0`: the code computes `1 - sum(matrix·vector)/benchmark`,
which is zero only when the benchmark happens to equal that sum, and the
source itself notes the identity holds only approximately on real data. -/
theorem claim_C3_counterexample :
    shockEffects M2 "Supply" 0 1 (fun _ => 0) = [-1] ∧ ((-1 : ℚ) = 0 → False) := by
  constructor
  · with_unfolding_all decide
  · intro hcontra
    exact absurd hcontra (by norm_num)

/-- **C3 (amended).** A shock experiment with `shock_size = 0` records the
effect `0` for every sampled sector — for both the Demand and the Supply
branch — *provided* the model is built from a table whose data satisfy the
exact accounting identity `A·output + demand = output`, `(I − A)` is
invertible, and the two benchmark sums are nonzero.  (Without the identity
the recorded effect is `1 − sum(matrix·vector)/benchmark`, generally
nonzero; see the counterexample.) -/
theorem claim_C3_amended_zero_shock {n : ℕ} (io : Matrix (Fin n) (Fin n) ℚ)
    (demand output : Fin n → ℚ)
    (hbal : (Leontief_Model.build io demand output).A.mulVec output + demand = output)
    (hdet : IsUnit (Leontief_Model.build io demand output).I_minus_A.det)
    (ho : (∑ j, output j) ≠ 0) (hd : (∑ j, demand j) ≠ 0)
    (t : String) (ht : t = "Demand" ∨ t = "Supply") (k : ℕ) (rand : ℕ → ℕ)
    (M' : Leontief_Model n) (res : ShockResult)
    (h : (Leontief_Model.build io demand output).shock t 0 k rand = .ok (M', res)) :
    ∀ e ∈ res.Shock_effect_data, e = 0 := by
  have hAbal : (coeffA io output).mulVec output + demand = output := hbal
  have hdet' : IsUnit (1 - coeffA io output).det := hdet
  have hsub : (1 - coeffA io output).mulVec output = demand := by
    rw [Matrix.sub_mulVec, Matrix.one_mulVec]
    exact (eq_sub_of_add_eq' hAbal).symm
  have hLd : (matInv (1 - coeffA io output)).mulVec demand = output := by
    rw [matInv_eq_inv, ← hsub, Matrix.mulVec_mulVec,
      Matrix.nonsing_inv_mul _ hdet', Matrix.one_mulVec]
  have hLfield : (Leontief_Model.build io demand output).leontief_inverse =
      matInv (1 - coeffA io output) := rfl
  have hIAfield : (Leontief_Model.build io demand output).I_minus_A =
      1 - coeffA io output := rfl
  have hdemf : (Leontief_Model.build io demand output).demand = demand := rfl
  have houtf : (Leontief_Model.build io demand output).output = output := rfl
  have htof : (Leontief_Model.build io demand output).total_output = ∑ j, output j := rfl
  have htdf : (Leontief_Model.build io demand output).total_final_demand =
      ∑ j, demand j := rfl
  rcases ht with rfl | rfl
  · rw [shock_demand] at h
    obtain ⟨hM, sectors, hc, hdata, _⟩ := shockAux_inv h
    intro e he
    rw [hdata] at he
    obtain ⟨sec, hsec, rfl⟩ := List.mem_map.mp he
    unfold singleEffect
    rw [hLfield, hdemf, htof, modVector_zero, hLd, div_self ho]
    ring
  · rw [shock_supply] at h
    obtain ⟨hM, sectors, hc, hdata, _⟩ := shockAux_inv h
    intro e he
    rw [hdata] at he
    obtain ⟨sec, hsec, rfl⟩ := List.mem_map.mp he
    unfold singleEffect
    rw [hIAfield, houtf, htdf, modVector_zero, hsub, div_self hd]
    ring

/-- Witness for the amended C3: the exactly balanced 1-sector table of `M3`
(no flows, demand = output = 2), Supply branch. -/
theorem claim_C3_amended_witness :
    R3.Shock_effect_data = [0] ∧ (0 : ℚ) = 0 :=
  ⟨rfl,
    claim_C3_amended_zero_shock (fun _ _ => 0) (fun _ => 2) (fun _ => 2)
      (by
        funext i
        simp [Leontief_Model.build, coeffA, Matrix.mulVec, Matrix.dotProduct,
          Fin.sum_univ_one])
      (isUnit_of_mul_eq_one _ 1
        (by simp [Leontief_Model.build, coeffA, Matrix.det_fin_one]))
      (by with_unfolding_all decide) (by with_unfolding_all decide)
      "Supply" (Or.inr rfl) 1 (fun _ => 0) M3 R3
      (by with_unfolding_all rfl) 0 (by simp [R3])⟩

/-- With a valid sample size (`1 ≤ k ≤ n`) a Demand shock always succeeds and
returns the receiver unchanged. -/
theorem shock_demand_ok {n : ℕ} (M : Leontief_Model n) (s : ℚ) (k : ℕ)
    (rand : ℕ → ℕ) (hk1 : 1 ≤ k) (hkn : k ≤ n) :
    ∃ res, M.shock "Demand" s k rand = .ok (M, res) := by
  rw [shock_demand]
  unfold shockAux
  rw [choiceNoReplace_ok n rand k hkn]
  simp only [ebind_ok]
  have hlen : (sampleLoop rand 0 (List.range n) k).length = k :=
    sampleLoop_length rand k 0 _ (by simpa [List.length_range] using hkn)
  have hlen2 : (shockLoop M.leontief_inverse M.demand M.total_output s
      (sampleLoop rand 0 (List.range n) k) []).length = k := by
    rw [shockLoop_eq_map]
    simpa using hlen
  have hne : shockLoop M.leontief_inverse M.demand M.total_output s
      (sampleLoop rand 0 (List.range n) k) [] ≠ [] := by
    intro hnil
    rw [hnil] at hlen2
    simp at hlen2
    omega
  rw [npQuantile_eq_ok hne (by norm_num) (by norm_num)]
  simp only [ebind_ok]
  rw [npQuantile_eq_ok hne (by norm_num) (by norm_num)]
  simp only [ebind_ok]
  rw [npQuantile_eq_ok hne (by norm_num) (by norm_num)]
  simp only [ebind_ok]
  exact ⟨_, rfl⟩

theorem innerLoop_bucket30 {n : ℕ} (M : Leontief_Model n) (draws : ℕ → ℕ → ℕ → ℕ)
    (sizes : List ℚ) (size : ℚ) (sizeIdx : ℕ) (hn : 300 ≤ n)
    (hsz : size = sizes.getD 0 0) :
    ∀ (reps : List ℕ) (st : ReturnResult),
      innerLoop M draws sizes size sizeIdx reps st = .ok
        { st with for_30 := st.for_30 ++
            reps.map (fun rep => shockU1 M "Demand" size 300 (draws sizeIdx rep)) } := by
  intro reps
  induction reps with
  | nil => intro st; simp [innerLoop]
  | cons rep rest ih =>
    intro st
    obtain ⟨res, hres⟩ := shock_demand_ok M size 300 (draws sizeIdx rep) (by omega) hn
    have hu1 : shockU1 M "Demand" size 300 (draws sizeIdx rep) = res.Upper_1_quantile := by
      simp [shockU1, hres]
    simp only [innerLoop, hres, ebind_ok]
    rw [ih]
    simp only [dispatchAppend]
    rw [if_pos hsz]
    simp [hu1, List.append_assoc]

theorem innerLoop_bucket70 {n : ℕ} (M : Leontief_Model n) (draws : ℕ → ℕ → ℕ → ℕ)
    (sizes : List ℚ) (size : ℚ) (sizeIdx : ℕ) (hn : 300 ≤ n)
    (hsz0 : size ≠ sizes.getD 0 0) (hsz1 : size = sizes.getD 1 0) :
    ∀ (reps : List ℕ) (st : ReturnResult),
      innerLoop M draws sizes size sizeIdx reps st = .ok
        { st with for_70 := st.for_70 ++
            reps.map (fun rep => shockU1 M "Demand" size 300 (draws sizeIdx rep)) } := by
  intro reps
  induction reps with
  | nil => intro st; simp [innerLoop]
  | cons rep rest ih =>
    intro st
    obtain ⟨res, hres⟩ := shock_demand_ok M size 300 (draws sizeIdx rep) (by omega) hn
    have hu1 : shockU1 M "Demand" size 300 (draws sizeIdx rep) = res.Upper_1_quantile := by
      simp [shockU1, hres]
    simp only [innerLoop, hres, ebind_ok]
    rw [ih]
    simp only [dispatchAppend]
    rw [if_neg hsz0, if_pos hsz1]
    simp [hu1, List.append_assoc]

theorem innerLoop_bucket100 {n : ℕ} (M : Leontief_Model n) (draws : ℕ → ℕ → ℕ → ℕ)
    (sizes : List ℚ) (size : ℚ) (sizeIdx : ℕ) (hn : 300 ≤ n)
    (hsz0 : size ≠ sizes.getD 0 0) (hsz1 : size ≠ sizes.getD 1 0) :
    ∀ (reps : List ℕ) (st : ReturnResult),
      innerLoop M draws sizes size sizeIdx reps st = .ok
        { st with for_100 := st.for_100 ++
            reps.map (fun rep => shockU1 M "Demand" size 300 (draws sizeIdx rep)) } := by
  intro reps
  induction reps with
  | nil => intro st; simp [innerLoop]
  | cons rep rest ih =>
    intro st
    obtain ⟨res, hres⟩ := shock_demand_ok M size 300 (draws sizeIdx rep) (by omega) hn
    have hu1 : shockU1 M "Demand" size 300 (draws sizeIdx rep) = res.Upper_1_quantile := by
      simp [shockU1, hres]
    simp only [innerLoop, hres, ebind_ok]
    rw [ih]
    simp only [dispatchAppend]
    rw [if_neg hsz0, if_neg hsz1]
    simp [hu1, List.append_assoc]

/-- A full `run` on a state carrying the configured shock sizes succeeds and
appends one bucket's worth of per-replication 99th-percentile values to each
of the three keys, in replication order. -/
theorem run_ok {n : ℕ} (M : Leontief_Model n) (draws : ℕ → ℕ → ℕ → ℕ)
    (st : ReproducibleResult) (hn : 300 ≤ n)
    (hsz : st.shock_sizes = [3 / 10, 7 / 10, 1]) :
    ∃ rr, st.run M draws = .ok ({ st with return_result := rr }, rr) ∧
      rr.for_30 = st.return_result.for_30 ++
        (List.range st.number_of_replications).map
          (fun rep => shockU1 M "Demand" (3 / 10) 300 (draws 0 rep)) ∧
      rr.for_70 = st.return_result.for_70 ++
        (List.range st.number_of_replications).map
          (fun rep => shockU1 M "Demand" (7 / 10) 300 (draws 1 rep)) ∧
      rr.for_100 = st.return_result.for_100 ++
        (List.range st.number_of_replications).map
          (fun rep => shockU1 M "Demand" 1 300 (draws 2 rep)) := by
  refine ⟨⟨st.return_result.for_30 ++
      (List.range st.number_of_replications).map
        (fun rep => shockU1 M "Demand" (3 / 10) 300 (draws 0 rep)),
    st.return_result.for_70 ++
      (List.range st.number_of_replications).map
        (fun rep => shockU1 M "Demand" (7 / 10) 300 (draws 1 rep)),
    st.return_result.for_100 ++
      (List.range st.number_of_replications).map
        (fun rep => shockU1 M "Demand" 1 300 (draws 2 rep))⟩, ?_, rfl, rfl, rfl⟩
  unfold ReproducibleResult.run
  rw [hsz]
  simp only [outerLoop]
  rw [innerLoop_bucket30 M draws [3 / 10, 7 / 10, 1] (3 / 10) 0 hn (by norm_num)]
  simp only [ebind_ok]
  rw [innerLoop_bucket70 M draws [3 / 10, 7 / 10, 1] (7 / 10) 1 hn (by norm_num)
    (by norm_num)]
  simp only [ebind_ok]
  rw [innerLoop_bucket100 M draws [3 / 10, 7 / 10, 1] 1 2 hn (by norm_num)
    (by norm_num)]
  simp only [ebind_ok]

/-- **C5.** On a freshly constructed aggregator, `run` over the configured
shock sizes `{0.3, 0.7, 1.0}` with `r` replications per size succeeds and
returns its own (aliased) result container, whose exactly three keys each
hold exactly `r` values; the `i`-th value of a key is the
`Upper_1%_quantile` statistic of the `i`-th replication's Demand shock
experiment at that size, in replication order. -/
theorem claim_C5_aggregator_three_buckets {n : ℕ} (M : Leontief_Model n)
    (draws : ℕ → ℕ → ℕ → ℕ) (r : ℕ) (hn : 300 ≤ n) :
    ∃ st', (ReproducibleResult.init r).run M draws = .ok (st', st'.return_result) ∧
      st'.return_result.for_30 =
        (List.range r).map (fun rep => shockU1 M "Demand" (3 / 10) 300 (draws 0 rep)) ∧
      st'.return_result.for_70 =
        (List.range r).map (fun rep => shockU1 M "Demand" (7 / 10) 300 (draws 1 rep)) ∧
      st'.return_result.for_100 =
        (List.range r).map (fun rep => shockU1 M "Demand" 1 300 (draws 2 rep)) ∧
      st'.return_result.for_30.length = r ∧
      st'.return_result.for_70.length = r ∧
      st'.return_result.for_100.length = r := by
  obtain ⟨rr, hrun, h30, h70, h100⟩ := run_ok M draws (ReproducibleResult.init r) hn rfl
  have e30 : rr.for_30 =
      (List.range r).map (fun rep => shockU1 M "Demand" (3 / 10) 300 (draws 0 rep)) := by
    rw [h30]; simp [ReproducibleResult.init]
  have e70 : rr.for_70 =
      (List.range r).map (fun rep => shockU1 M "Demand" (7 / 10) 300 (draws 1 rep)) := by
    rw [h70]; simp [ReproducibleResult.init]
  have e100 : rr.for_100 =
      (List.range r).map (fun rep => shockU1 M "Demand" 1 300 (draws 2 rep)) := by
    rw [h100]; simp [ReproducibleResult.init]
  exact ⟨{ ReproducibleResult.init r with return_result := rr }, hrun, e30, e70, e100,
    by rw [e30]; simp, by rw [e70]; simp, by rw [e100]; simp⟩

/-- Witness for C5 on a 300-sector model with one replication per size. -/
theorem claim_C5_witness :
    ∃ st', (ReproducibleResult.init 1).run M300 (fun _ _ _ => 0) =
        .ok (st', st'.return_result) ∧
      st'.return_result.for_30 = (List.range 1).map
        (fun rep => shockU1 M300 "Demand" (3 / 10) 300 ((fun _ _ _ => (0 : ℕ)) 0 rep)) ∧
      st'.return_result.for_70 = (List.range 1).map
        (fun rep => shockU1 M300 "Demand" (7 / 10) 300 ((fun _ _ _ => (0 : ℕ)) 1 rep)) ∧
      st'.return_result.for_100 = (List.range 1).map
        (fun rep => shockU1 M300 "Demand" 1 300 ((fun _ _ _ => (0 : ℕ)) 2 rep)) ∧
      st'.return_result.for_30.length = 1 ∧
      st'.return_result.for_70.length = 1 ∧
      st'.return_result.for_100.length = 1 :=
  claim_C5_aggregator_three_buckets M300 (fun _ _ _ => 0) 1 (by decide)

/-- `k` iterated `run` calls on a well-configured state succeed, preserve the
configuration, and extend each bucket by exactly `k * r` values. -/
theorem runIterFrom_ok {n : ℕ} (M : Leontief_Model n) (F : ℕ → ℕ → ℕ → ℕ → ℕ)
    (hn : 300 ≤ n) (r : ℕ) :
    ∀ (k c : ℕ) (st : ReproducibleResult),
      st.shock_sizes = [3 / 10, 7 / 10, 1] → st.number_of_replications = r →
      ∃ st', runIterFrom M F c k st = .ok st' ∧
        st'.shock_sizes = [3 / 10, 7 / 10, 1] ∧ st'.number_of_replications = r ∧
        (∃ t, st'.return_result.for_30 = st.return_result.for_30 ++ t ∧
          t.length = k * r) ∧
        (∃ t, st'.return_result.for_70 = st.return_result.for_70 ++ t ∧
          t.length = k * r) ∧
        (∃ t, st'.return_result.for_100 = st.return_result.for_100 ++ t ∧
          t.length = k * r) := by
  intro k
  induction k with
  | zero =>
    intro c st h1 h2
    exact ⟨st, rfl, h1, h2, ⟨[], by simp, by simp⟩, ⟨[], by simp, by simp⟩,
      ⟨[], by simp, by simp⟩⟩
  | succ k ih =>
    intro c st h1 h2
    obtain ⟨rr, hrun, h30, h70, h100⟩ := run_ok M (F c) st hn h1
    obtain ⟨st', hiter, hsz', hrep', ⟨t30, ht30, hl30⟩, ⟨t70, ht70, hl70⟩,
      ⟨t100, ht100, hl100⟩⟩ := ih (c + 1) { st with return_result := rr } h1 h2
    refine ⟨st', ?_, hsz', hrep', ?_, ?_, ?_⟩
    · simp only [runIterFrom, hrun, ebind_ok]
      exact hiter
    · refine ⟨(List.range st.number_of_replications).map
        (fun rep => shockU1 M "Demand" (3 / 10) 300 (F c 0 rep)) ++ t30, ?_, ?_⟩
      · rw [ht30]
        show rr.for_30 ++ t30 = _
        rw [h30, List.append_assoc]
      · simp [h2, hl30]
        ring
    · refine ⟨(List.range st.number_of_replications).map
        (fun rep => shockU1 M "Demand" (7 / 10) 300 (F c 1 rep)) ++ t70, ?_, ?_⟩
      · rw [ht70]
        show rr.for_70 ++ t70 = _
        rw [h70, List.append_assoc]
      · simp [h2, hl70]
        ring
    · refine ⟨(List.range st.number_of_replications).map
        (fun rep => shockU1 M "Demand" 1 300 (F c 2 rep)) ++ t100, ?_, ?_⟩
      · rw [ht100]
        show rr.for_100 ++ t100 = _
        rw [h100, List.append_assoc]
      · simp [h2, hl100]
        ring

theorem runIterFrom_zero {n : ℕ} (M : Leontief_Model n) (F : ℕ → ℕ → ℕ → ℕ → ℕ)
    (c : ℕ) (st : ReproducibleResult) : runIterFrom M F c 0 st = .ok st := rfl

theorem runIterFrom_succ_left {n : ℕ} (M : Leontief_Model n)
    (F : ℕ → ℕ → ℕ → ℕ → ℕ) (c k : ℕ) (st : ReproducibleResult) :
    runIterFrom M F c (k + 1) st =
      (st.run M (F c)) >>= fun p => runIterFrom M F (c + 1) k p.1 := rfl

/-- Peeling the *last* call off an iterate: `k + 1` calls are `k` calls
followed by one `run` with the random source of call index `c + k`. -/
theorem runIterFrom_succ {n : ℕ} (M : Leontief_Model n) (F : ℕ → ℕ → ℕ → ℕ → ℕ) :
    ∀ (k c : ℕ) (st : ReproducibleResult),
      runIterFrom M F c (k + 1) st =
        (runIterFrom M F c k st) >>=
          fun st' => (st'.run M (F (c + k))) >>= fun p => .ok p.1 := by
  intro k
  induction k with
  | zero =>
    intro c st
    simp [runIterFrom_succ_left, runIterFrom_zero, ebind_ok, Nat.add_zero]
  | succ k ih =>
    intro c st
    rw [runIterFrom_succ_left M F c (k + 1) st, runIterFrom_succ_left M F c k st,
      bind_assoc]
    congr 1
    funext p
    rw [ih (c + 1) p.1]
    have hc : c + 1 + k = c + (k + 1) := by omega
    rw [hc]

/-- **C10.** `run` is not idempotent on its aggregator instance: the result
container is created once at construction and each `run` appends to it.
After `k` completed calls on the same instance every bucket holds exactly
`k * r` values (`r` = replications per size), and the `(k+1)`-st call
retains the first `k` calls' values as a prefix of every bucket. -/
theorem claim_C10_run_accumulates {n : ℕ} (M : Leontief_Model n)
    (F : ℕ → ℕ → ℕ → ℕ → ℕ) (r k : ℕ) (hn : 300 ≤ n) :
    ∃ st', runIter M F k (ReproducibleResult.init r) = .ok st' ∧
      st'.return_result.for_30.length = k * r ∧
      st'.return_result.for_70.length = k * r ∧
      st'.return_result.for_100.length = k * r ∧
      ∀ st'', runIter M F (k + 1) (ReproducibleResult.init r) = .ok st'' →
        (∃ t, st''.return_result.for_30 = st'.return_result.for_30 ++ t) ∧
        (∃ t, st''.return_result.for_70 = st'.return_result.for_70 ++ t) ∧
        (∃ t, st''.return_result.for_100 = st'.return_result.for_100 ++ t) := by
  obtain ⟨st', hiter, hsz', hrep', ⟨t30, ht30, hl30⟩, ⟨t70, ht70, hl70⟩,
    ⟨t100, ht100, hl100⟩⟩ :=
    runIterFrom_ok M F hn r k 0 (ReproducibleResult.init r) rfl rfl
  refine ⟨st', hiter, ?_, ?_, ?_, ?_⟩
  · rw [ht30]
    simpa [ReproducibleResult.init] using hl30
  · rw [ht70]
    simpa [ReproducibleResult.init] using hl70
  · rw [ht100]
    simpa [ReproducibleResult.init] using hl100
  · intro st'' hst''
    unfold runIter at hst''
    rw [runIterFrom_succ] at hst''
    rw [hiter] at hst''
    simp only [ebind_ok] at hst''
    obtain ⟨rr, hrun, h30, h70, h100⟩ := run_ok M (F (0 + k)) st' hn hsz'
    rw [hrun] at hst''
    simp only [ebind_ok, Except.ok.injEq] at hst''
    subst hst''
    exact ⟨⟨_, h30⟩, ⟨_, h70⟩, ⟨_, h100⟩⟩

/-- Witness for C10: two iterated calls on a 300-sector model, one
replication per size. -/
theorem claim_C10_witness :
    ∃ st', runIter M300 (fun _ _ _ _ => 0) 2 (ReproducibleResult.init 1) = .ok st' ∧
      st'.return_result.for_30.length = 2 * 1 ∧
      st'.return_result.for_70.length = 2 * 1 ∧
      st'.return_result.for_100.length = 2 * 1 ∧
      ∀ st'', runIter M300 (fun _ _ _ _ => 0) (2 + 1) (ReproducibleResult.init 1) =
          .ok st'' →
        (∃ t, st''.return_result.for_30 = st'.return_result.for_30 ++ t) ∧
        (∃ t, st''.return_result.for_70 = st'.return_result.for_70 ++ t) ∧
        (∃ t, st''.return_result.for_100 = st'.return_result.for_100 ++ t) :=
  claim_C10_run_accumulates M300 (fun _ _ _ _ => 0) 1 2 (by decide)

end LeontiefVerif
